import Mathlib

/-!
Shallow embedding of `finat/finiteelementbase.py` (class `FiniteElementBase`).

Python dictionaries are modelled as a pair of an explicit key list (recording
the iteration domain) and a total function giving each key its value; real
numbers produced by the numeric evaluator are modelled as rationals; a Python
statement that raises an exception is modelled as an `Option`/`Except` value
that is `none`/`error`.
-/

namespace Finat

/-- Quadrature rule returned by the external `make_quadrature` collaborator:
the point set is identified with the index range of the weight list, and
`weights` is the quadrature weight of each point. -/
structure Quad where
  weights : List ℚ

/-- Reference cell, the read-only topology collaborator.  `dims` lists the keys
of `cell.sub_entities`; `entities d` lists the keys of `cell.sub_entities[d]`;
`sub_entities d e` is the list of `(dimension, entity)` pairs in the closure of
entity `(d, e)`; `topKeys d` lists the keys of `cell.topology[d]` and
`topology d e` is the cone (bounding facet tuple) of entity `(d, e)`;
`construct_subelement d` is an abstract identifier of the reference cell built
for dimension `d` sub-entities. -/
structure Cell where
  dims : List ℕ
  entities : ℕ → List ℕ
  sub_entities : ℕ → ℕ → List (ℕ × ℕ)
  topKeys : ℕ → List ℕ
  topology : ℕ → ℕ → List ℕ
  construct_subelement : ℕ → ℕ

/-- Finite element on a non-product cell: the abstract contract of
`FiniteElementBase` restricted to what the derived operations consume.
`degree` models `self.degree` as a list of per-axis degrees (a scalar degree is
a one-element list); `dofDims` lists the keys of `entity_dofs()`,
`dofEntities d` the keys of `entity_dofs()[d]`, and `entity_dofs d e` the DOF
id list of entity `(d, e)`.  `index_size` is the flattened extent of the basis
index tuple `beta` (so DOF ids range over `0 .. index_size - 1`) and
`value_size` the flattened extent of the value index tuple `zeta`.
`make_quadrature c ds` is the external quadrature provider and
`basis_eval d f q k z` the numeric value, at quadrature point `q` of the rule
used for dimension `d`, of component `z` of basis function `k` tabulated by
`basis_evaluation(0, quad.point_set, entity=(d, f))`. -/
structure Element where
  cell : Cell
  degree : List ℕ
  dofDims : List ℕ
  dofEntities : ℕ → List ℕ
  entity_dofs : ℕ → ℕ → List ℕ
  index_size : ℕ
  value_size : ℕ
  make_quadrature : ℕ → List ℕ → Quad
  basis_eval : ℕ → ℕ → ℕ → ℕ → ℕ → ℚ

/-- Closure DOFs of one entity: `sorted(chain(*[entity_dofs[d][se] for d, se in
sub_entities]))` from `_entity_closure_dofs` (finiteelementbase.py lines
67-74). -/
def closureDofsAt (el : Element) (d e : ℕ) : List ℕ :=
  List.insertionSort (· ≤ ·)
    (((el.cell.sub_entities d e).map fun p => el.entity_dofs p.1 p.2).flatten)

/-- Full result of `entity_closure_dofs()`: the nested dictionary
`{dim: {e: closureDofsAt ...}}` over `self.cell.sub_entities.items()`. -/
def entity_closure_dofs (el : Element) : List (ℕ × List (ℕ × List ℕ)) :=
  el.cell.dims.map fun d =>
    (d, (el.cell.entities d).map fun e => (e, closureDofsAt el d e))

/-- Quadrature rule built in `_entity_support_dofs` for sub-entity dimension
`d`: `make_quadrature(entity_cell, (2*numpy.array(self.degree)).tolist())`
(finiteelementbase.py lines 89-90). -/
def quadFor (el : Element) (d : ℕ) : Quad :=
  el.make_quadrature (el.cell.construct_subelement d) (el.degree.map fun k => 2 * k)

/-- Support threshold `eps = 1.e-8` of `_entity_support_dofs`
(finiteelementbase.py line 92), as the exact rational. -/
def eps : ℚ := 1 / 100000000

/-- Value contraction `IndexSum(Product(Indexed(vals, beta + zeta),
Indexed(vals, beta + zeta)), zeta)`: the sum over value indices of the squared
order-0 basis evaluation at point `q` for basis function `k`. -/
def sqVal (el : Element) (d f q k : ℕ) : ℚ :=
  ((List.range el.value_size).map fun z =>
    el.basis_eval d f q k z * el.basis_eval d f q k z).sum

/-- Quadrature-weighted integral `IndexSum(Product(sqVal, weight), points)` of
the squared basis function `k` over the sub-entity `(d, f)`
(finiteelementbase.py lines 99-104). -/
def integral (el : Element) (d f k : ℕ) : ℚ :=
  ((quadFor el d).weights.enum.map fun p => sqVal el d f p.1 k * p.2).sum

/-- Support DOFs of one entity: `[dof for dof, i in enumerate(ints) if i > eps]`
(finiteelementbase.py line 108). -/
def supportDofsAt (el : Element) (d f : ℕ) : List ℕ :=
  (List.range el.index_size).filter fun k => decide (eps < integral el d f k)

/-- Full result of `entity_support_dofs()`: dimensions iterate over
`self.cell.sub_entities.keys()`, entities over `self.entity_dofs()[dim].keys()`
(finiteelementbase.py lines 82-111). -/
def entity_support_dofs (el : Element) : List (ℕ × List (ℕ × List ℕ)) :=
  el.cell.dims.map fun d =>
    (d, (el.dofEntities d).map fun f => (f, supportDofsAt el d f))

/-- Singleton-set unpacking `n, = set(len(xs) for xs in values)`: returns the
common length when all lengths agree (and the list is nonempty), otherwise the
Python statement raises, modelled as `none`. -/
def uniqueLen (ls : List (List ℕ)) : Option ℕ :=
  match (ls.map List.length).dedup with
  | [n] => some n
  | _ => none

/-- Permutation table of a single dimension in the non-product branch of
`permutations()` (finiteelementbase.py lines 55-64): `n` is unpacked from the
set of per-entity DOF counts, `perm = list(range(n))`; dimension 0 gets the
single entry `{0: perm}`, any other dimension gets one entry per orientation
`o` in `range(0, factorial(m)*2)` where `m` is unpacked from the set of cone
lengths of `self.cell.topology[dim]`. -/
def permDictAt (el : Element) (d : ℕ) : Option (List (ℕ × List ℕ)) :=
  match uniqueLen ((el.dofEntities d).map (el.entity_dofs d)) with
  | none => none
  | some n =>
    if d = 0 then some [(0, List.range n)]
    else
      match uniqueLen ((el.cell.topKeys d).map (el.cell.topology d)) with
      | none => none
      | some m =>
        some ((List.range (Nat.factorial m * 2)).map fun o => (o, List.range n))

/-- Assembly of a dictionary keyed by the listed keys from a per-key
computation that may raise: if any key fails the whole call raises (`none`). -/
def collectTables {κ τ : Type} (g : κ → Option τ) : List κ → Option (List (κ × τ))
  | [] => some []
  | d :: ds =>
    match g d, collectTables g ds with
    | some t, some rest => some ((d, t) :: rest)
    | _, _ => none

/-- Result of `permutations()` on a non-product cell: the per-dimension tables
assembled over `self.entity_dofs().items()` (finiteelementbase.py lines
55-65). -/
def permutations (el : Element) : Option (List (ℕ × List (ℕ × List ℕ))) :=
  collectTables (permDictAt el) el.dofDims

/-- Finite element on a tensor-product cell, for the
`isinstance(self.cell, TensorProductCell)` branch of `permutations()`:
dimension keys are pairs, and `factorA`/`factorB` are the two factor cells
`self.cell.cells[0]` and `self.cell.cells[1]` (only their `topology` is
consumed). -/
structure ProdElement where
  factorA : Cell
  factorB : Cell
  dofDims : List (ℕ × ℕ)
  dofEntities : ℕ × ℕ → List ℕ
  entity_dofs : ℕ × ℕ → ℕ → List ℕ

/-- Permutation table of a single dimension pair in the product branch of
`permutations()` (finiteelementbase.py lines 44-54): one entry per orientation
pair `(i0, i1)` with `i0` in `range(factorial(m0)*2)` and `i1` in
`range(factorial(m1)*2)`. -/
def prodPermDictAt (el : ProdElement) (dim : ℕ × ℕ) :
    Option (List ((ℕ × ℕ) × List ℕ)) :=
  match uniqueLen ((el.dofEntities dim).map (el.entity_dofs dim)) with
  | none => none
  | some n =>
    match uniqueLen ((el.factorA.topKeys dim.1).map (el.factorA.topology dim.1)),
          uniqueLen ((el.factorB.topKeys dim.2).map (el.factorB.topology dim.2)) with
    | some m0, some m1 =>
      some (((List.range (Nat.factorial m0 * 2)).map fun i0 =>
        (List.range (Nat.factorial m1 * 2)).map fun i1 =>
          ((i0, i1), List.range n)).flatten)
    | _, _ => none

/-- Result of `permutations()` on a tensor-product cell. -/
def prodPermutations (el : ProdElement) :
    Option (List ((ℕ × ℕ) × List ((ℕ × ℕ) × List ℕ))) :=
  collectTables (prodPermDictAt el) el.dofDims

/-- Default `fiat_equivalent` accessor (finiteelementbase.py lines 134-139):
always raises `NotImplementedError` with a message naming the element type. -/
def fiat_equivalent (typeName : String) : Except String Unit :=
  Except.error ("Cannot make equivalent FIAT element for " ++ typeName)

/-- Memoization cell of a cached property: the stored value, if any, together
with a count of how many times the underlying computation has run. -/
structure Cache (α : Type) where
  val : Option α
  computeCount : ℕ

/-- Modelled from the spec: the `cached_property` decorator applied to
`_entity_closure_dofs` and `_entity_support_dofs` is imported from `gem.utils`,
outside this repository; per the spec the derived maps are computed lazily on
first access and cached for the lifetime of the element instance (memoization,
not recomputation per call).  `cachedProperty compute` maps a cache state to
the returned value and the new cache state, running `compute` only when no
value is stored. -/
def cachedProperty {α : Type} (compute : Unit → α) : Cache α → α × Cache α
  | ⟨some v, n⟩ => (v, ⟨some v, n⟩)
  | ⟨none, n⟩ => (compute (), ⟨some (compute ()), n + 1⟩)

/-- Reference triangle with a P1-like element: vertex `v` carries DOF `[v]`,
edges and the cell carry no DOFs; the quadrature stub has one point of weight
1 and basis function `k` restricted to vertex `f` evaluates to 1 when `k = f`
and to 0 otherwise.  Used as the concrete instance for witnesses. -/
def triCell : Cell where
  dims := [0, 1, 2]
  entities := fun d => if d = 2 then [0] else [0, 1, 2]
  sub_entities := fun d e =>
    if d = 0 then [(0, e)]
    else if d = 1 then
      if e = 0 then [(1, 0), (0, 1), (0, 2)]
      else if e = 1 then [(1, 1), (0, 0), (0, 2)]
      else [(1, 2), (0, 0), (0, 1)]
    else [(2, 0), (1, 0), (1, 1), (1, 2), (0, 0), (0, 1), (0, 2)]
  topKeys := fun d => if d = 2 then [0] else [0, 1, 2]
  topology := fun d e =>
    if d = 0 then [e]
    else if d = 1 then
      if e = 0 then [1, 2] else if e = 1 then [0, 2] else [0, 1]
    else [0, 1, 2]
  construct_subelement := fun d => d

/-- Concrete P1-like element on the reference triangle. -/
def tri1 : Element where
  cell := triCell
  degree := [1]
  dofDims := [0, 1, 2]
  dofEntities := fun d => if d = 2 then [0] else [0, 1, 2]
  entity_dofs := fun d e => if d = 0 then [e] else []
  index_size := 3
  value_size := 1
  make_quadrature := fun _ _ => ⟨[1]⟩
  basis_eval := fun d f _ k _ => if d = 0 ∧ k = f then 1 else 0

/-- Element identical to `tri1` except that the two vertex entities 0 and 1
carry DOF lists of different lengths, violating the uniform-count
precondition of `permutations()`. -/
def badElem : Element where
  cell := triCell
  degree := [1]
  dofDims := [0, 1, 2]
  dofEntities := fun d => if d = 2 then [0] else [0, 1, 2]
  entity_dofs := fun d e => if d = 0 then (if e = 0 then [0, 1] else [e + 1]) else []
  index_size := 4
  value_size := 1
  make_quadrature := fun _ _ => ⟨[1]⟩
  basis_eval := fun d f _ k _ => if d = 0 ∧ k = f then 1 else 0

/-- Interval factor cell used to build a concrete product element: two
vertices and one edge. -/
def intervalCell : Cell where
  dims := [0, 1]
  entities := fun d => if d = 0 then [0, 1] else [0]
  sub_entities := fun d e =>
    if d = 0 then [(0, e)] else [(1, 0), (0, 0), (0, 1)]
  topKeys := fun d => if d = 0 then [0, 1] else [0]
  topology := fun d e => if d = 0 then [e] else [0, 1]
  construct_subelement := fun d => d

/-- Product element (interval times interval) whose DOF lists at dimension
`(0, 0)` have different lengths, violating the uniform-count precondition. -/
def badProdElem : ProdElement where
  factorA := intervalCell
  factorB := intervalCell
  dofDims := [(0, 0)]
  dofEntities := fun _ => [0, 1]
  entity_dofs := fun _ e => if e = 0 then [0, 1] else [2]

theorem uniqueLen_eq {ls : List (List ℕ)} {n : ℕ} (h : uniqueLen ls = some n) :
    ∀ l ∈ ls, l.length = n := by
  intro l hl
  have hmem : l.length ∈ (ls.map List.length).dedup :=
    List.mem_dedup.mpr (List.mem_map_of_mem _ hl)
  revert h
  unfold uniqueLen
  cases hd : (ls.map List.length).dedup with
  | nil => simp at hd; intro h; cases h
  | cons a t =>
    cases t with
    | nil =>
      intro h
      rw [hd] at hmem
      simp at h hmem
      rw [hmem, h]
    | cons b t2 => intro h; cases h

theorem collectTables_none {κ τ : Type} (g : κ → Option τ) (ds : List κ) (d : κ)
    (hd : d ∈ ds) (hn : g d = none) : collectTables g ds = none := by
  induction ds with
  | nil => cases hd
  | cons a as ih =>
    rcases List.mem_cons.mp hd with rfl | hmem
    · cases hrest : collectTables g as <;> simp [collectTables, hn, hrest]
    · cases ha : g a <;> simp [collectTables, ha, ih hmem]

theorem collectTables_mem {κ τ : Type} (g : κ → Option τ) (ds : List κ)
    (tbl : List (κ × τ)) (d : κ) (h : collectTables g ds = some tbl)
    (hd : d ∈ ds) : ∃ t, g d = some t ∧ (d, t) ∈ tbl := by
  induction ds generalizing tbl with
  | nil => cases hd
  | cons a as ih =>
    cases ha : g a with
    | none => rw [collectTables, ha] at h; cases h
    | some t =>
      cases hrest : collectTables g as with
      | none => rw [collectTables, ha, hrest] at h; cases h
      | some rest =>
        rw [collectTables, ha, hrest] at h
        injection h with h
        subst h
        rcases List.mem_cons.mp hd with rfl | hmem
        · exact ⟨t, ha, List.mem_cons_self _ _⟩
        · obtain ⟨t2, h1, h2⟩ := ih rest hrest hmem
          exact ⟨t2, h1, List.mem_cons_of_mem _ h2⟩

/-- C1: for every element, every entity dimension `d` in the cell's
`sub_entities`, and every entity `f` with an entry in `entity_dofs()[d]`, a DOF
id `k` is in `entity_support_dofs()[d][f]` iff the quadrature-weighted integral
over the sub-entity `(d, f)` of the value-contracted square of basis function
`k` is strictly greater than `1e-8`; an integral exactly equal to `1e-8` is
excluded, and the resulting list is in strictly ascending DOF-id order. -/
theorem support_dofs_characterization (el : Element) (d f k : ℕ)
    (hd : d ∈ el.cell.dims) (hf : f ∈ el.dofEntities d) (hk : k < el.index_size) :
    (k ∈ supportDofsAt el d f ↔ eps < integral el d f k) ∧
    (integral el d f k = eps → k ∉ supportDofsAt el d f) ∧
    List.Sorted (· < ·) (supportDofsAt el d f) ∧
    ∃ row, (d, row) ∈ entity_support_dofs el ∧ (f, supportDofsAt el d f) ∈ row := by
  have hiff : k ∈ supportDofsAt el d f ↔ eps < integral el d f k := by
    unfold supportDofsAt
    rw [List.mem_filter, List.mem_range, decide_eq_true_eq]
    exact ⟨fun h => h.2, fun h => ⟨hk, h⟩⟩
  refine ⟨hiff, ?_, ?_, ?_⟩
  · intro heq hmem
    have hlt := hiff.mp hmem
    rw [heq] at hlt
    exact lt_irrefl _ hlt
  · exact List.Sorted.filter _ (List.sorted_lt_range _)
  · exact ⟨(el.dofEntities d).map fun f2 => (f2, supportDofsAt el d f2),
      List.mem_map_of_mem _ hd, List.mem_map_of_mem _ hf⟩

/-- Witness for `support_dofs_characterization`: the concrete element `tri1`
at dimension 0, entity 0, DOF 0 satisfies the hypotheses and the
characterization. -/
theorem support_dofs_characterization_witness :
    (0 ∈ tri1.cell.dims ∧ 0 ∈ tri1.dofEntities 0 ∧ 0 < tri1.index_size) ∧
    ((0 ∈ supportDofsAt tri1 0 0 ↔ eps < integral tri1 0 0 0) ∧
     (integral tri1 0 0 0 = eps → 0 ∉ supportDofsAt tri1 0 0) ∧
     List.Sorted (· < ·) (supportDofsAt tri1 0 0) ∧
     ∃ row, (0, row) ∈ entity_support_dofs tri1 ∧
       (0, supportDofsAt tri1 0 0) ∈ row) :=
  ⟨⟨by decide, by decide, by decide⟩,
    support_dofs_characterization tri1 0 0 0 (by decide) (by decide) (by decide)⟩

/-- C2: for every element, every dimension `d` and every entity `e` in the
cell's `sub_entities` relation, `entity_closure_dofs()[d][e]` equals the
ascending sort of the concatenation of `entity_dofs()[d2][e2]` over all pairs
`(d2, e2)` listed in `cell.sub_entities[d][e]`: it is sorted and is a
permutation of that concatenation. -/
theorem closure_dofs_sorted_concat (el : Element) (d e : ℕ)
    (hd : d ∈ el.cell.dims) (he : e ∈ el.cell.entities d) :
    List.Sorted (· ≤ ·) (closureDofsAt el d e) ∧
    (closureDofsAt el d e).Perm
      (((el.cell.sub_entities d e).map fun p => el.entity_dofs p.1 p.2).flatten) ∧
    ∃ row, (d, row) ∈ entity_closure_dofs el ∧ (e, closureDofsAt el d e) ∈ row := by
  refine ⟨List.sorted_insertionSort _ _, List.perm_insertionSort _ _, ?_⟩
  exact ⟨(el.cell.entities d).map fun e2 => (e2, closureDofsAt el d e2),
    List.mem_map_of_mem _ hd, List.mem_map_of_mem _ he⟩

/-- Witness for `closure_dofs_sorted_concat`: the concrete element `tri1` at
dimension 1, entity 0. -/
theorem closure_dofs_sorted_concat_witness :
    (1 ∈ tri1.cell.dims ∧ 0 ∈ tri1.cell.entities 1) ∧
    (List.Sorted (· ≤ ·) (closureDofsAt tri1 1 0) ∧
     (closureDofsAt tri1 1 0).Perm
       (((tri1.cell.sub_entities 1 0).map fun p => tri1.entity_dofs p.1 p.2).flatten) ∧
     ∃ row, (1, row) ∈ entity_closure_dofs tri1 ∧
       (0, closureDofsAt tri1 1 0) ∈ row) :=
  ⟨⟨by decide, by decide⟩, closure_dofs_sorted_concat tri1 1 0 (by decide) (by decide)⟩

/-- C3: for every element whose cell's `sub_entities` relation is transitively
closed at `(d1, e1)`, whenever entity `e2` of dimension `d2` is a sub-entity of
entity `e1` of dimension `d1 > d2`, every DOF id in
`entity_closure_dofs()[d2][e2]` is also in `entity_closure_dofs()[d1][e1]`. -/
theorem closure_dofs_monotone (el : Element) (d1 e1 d2 e2 : ℕ)
    (htrans : ∀ p ∈ el.cell.sub_entities d1 e1,
      ∀ q ∈ el.cell.sub_entities p.1 p.2, q ∈ el.cell.sub_entities d1 e1)
    (hsub : (d2, e2) ∈ el.cell.sub_entities d1 e1) (hdim : d2 < d1) :
    ∀ x ∈ closureDofsAt el d2 e2, x ∈ closureDofsAt el d1 e1 := by
  intro x hx
  unfold closureDofsAt at hx ⊢
  rw [List.mem_insertionSort, List.mem_flatten] at hx ⊢
  obtain ⟨l, hl, hxl⟩ := hx
  obtain ⟨p, hp, rfl⟩ := List.mem_map.mp hl
  exact ⟨el.entity_dofs p.1 p.2,
    List.mem_map_of_mem _ (htrans (d2, e2) hsub p hp), hxl⟩

/-- Witness for `closure_dofs_monotone`: in `tri1`, vertex 1 is a sub-entity
of edge 0 and the closure DOFs of the vertex are contained in those of the
edge. -/
theorem closure_dofs_monotone_witness :
    ((∀ p ∈ tri1.cell.sub_entities 1 0,
        ∀ q ∈ tri1.cell.sub_entities p.1 p.2, q ∈ tri1.cell.sub_entities 1 0) ∧
      (0, 1) ∈ tri1.cell.sub_entities 1 0 ∧ 0 < 1) ∧
    ∀ x ∈ closureDofsAt tri1 0 1, x ∈ closureDofsAt tri1 1 0 :=
  ⟨⟨by decide, by decide, by decide⟩,
    closure_dofs_monotone tri1 1 0 0 1 (by decide) (by decide) (by decide)⟩

/-- C4: for every element whose `entity_dofs()` assigns disjoint, duplicate-free
DOF id lists across the (dimension, entity) pairs below `(d, e)` (the spec
invariant: all DOF ids together cover `0 .. space_dimension - 1` exactly once),
whose cell lists each closure as a set (no repeated pairs), and whose
`cell.sub_entities[d][e]` contains `(d, e)` itself:
`entity_closure_dofs()[d][e]` is sorted ascending, has no duplicate ids, and
contains every id of `entity_dofs()[d][e]`. -/
theorem closure_dofs_nodup_superset (el : Element) (d e : ℕ)
    (hself : (d, e) ∈ el.cell.sub_entities d e)
    (hpairs : (el.cell.sub_entities d e).Nodup)
    (hnd : ∀ p ∈ el.cell.sub_entities d e, (el.entity_dofs p.1 p.2).Nodup)
    (hdisj : ∀ p ∈ el.cell.sub_entities d e, ∀ q ∈ el.cell.sub_entities d e,
      p ≠ q → ∀ x ∈ el.entity_dofs p.1 p.2, x ∉ el.entity_dofs q.1 q.2) :
    List.Sorted (· ≤ ·) (closureDofsAt el d e) ∧
    (closureDofsAt el d e).Nodup ∧
    ∀ x ∈ el.entity_dofs d e, x ∈ closureDofsAt el d e := by
  refine ⟨List.sorted_insertionSort _ _, ?_, ?_⟩
  · have hflat :
        (((el.cell.sub_entities d e).map fun p => el.entity_dofs p.1 p.2).flatten).Nodup := by
      rw [List.nodup_flatten]
      constructor
      · intro l hl
        obtain ⟨p, hp, rfl⟩ := List.mem_map.mp hl
        exact hnd p hp
      · rw [List.pairwise_map]
        refine List.Pairwise.imp_of_mem ?_ hpairs
        intro p q hp hq hne x hxp hxq
        exact hdisj p hp q hq hne x hxp hxq
    exact (List.perm_insertionSort _ _).symm.nodup hflat
  · intro x hx
    unfold closureDofsAt
    rw [List.mem_insertionSort, List.mem_flatten]
    exact ⟨el.entity_dofs d e, List.mem_map_of_mem _ hself, hx⟩

/-- Witness for `closure_dofs_nodup_superset`: the concrete element `tri1` at
the cell entity `(2, 0)`. -/
theorem closure_dofs_nodup_superset_witness :
    ((2, 0) ∈ tri1.cell.sub_entities 2 0 ∧
     (tri1.cell.sub_entities 2 0).Nodup ∧
     (∀ p ∈ tri1.cell.sub_entities 2 0, (tri1.entity_dofs p.1 p.2).Nodup) ∧
     (∀ p ∈ tri1.cell.sub_entities 2 0, ∀ q ∈ tri1.cell.sub_entities 2 0,
       p ≠ q → ∀ x ∈ tri1.entity_dofs p.1 p.2, x ∉ tri1.entity_dofs q.1 q.2)) ∧
    (List.Sorted (· ≤ ·) (closureDofsAt tri1 2 0) ∧
     (closureDofsAt tri1 2 0).Nodup ∧
     ∀ x ∈ tri1.entity_dofs 2 0, x ∈ closureDofsAt tri1 2 0) :=
  ⟨⟨by decide, by decide, by decide, by decide⟩,
    closure_dofs_nodup_superset tri1 2 0 (by decide) (by decide) (by decide) (by decide)⟩

/-- C5 counterexample: on the concrete element `tri1` (a non-product cell with
dimension 0 in `entity_dofs()`), each vertex cone has the uniform length 1, so
the claim requires `permutations()[0]` to have one entry per orientation in
`0 .. factorial(1)*2 - 1`, i.e. keys `[0, 1]`; the code produces the single
entry keyed 0. -/
theorem permutations_full_range_counterexample :
    permDictAt tri1 0 = some [(0, [0])] ∧
    uniqueLen ((tri1.cell.topKeys 0).map (tri1.cell.topology 0)) = some 1 ∧
    [(0, [0])].map Prod.fst ≠ List.range (Nat.factorial 1 * 2) := by
  refine ⟨by decide, by decide, by decide⟩

/-- C5 (amended): for every element on a non-product cell and every dimension
`d ≠ 0` in `entity_dofs()` with uniform per-entity DOF count `n` and uniform
cone size `m`, `permutations()[d]` has exactly one entry per orientation id in
`0 .. factorial(m)*2 - 1` and every value is the identity permutation
`[0, ..., n-1]`; dimension 0 instead gets the single entry keyed 0. -/
theorem permutations_full_range_amended (el : Element) (d n m : ℕ)
    (hd : d ∈ el.dofDims) (h0 : d ≠ 0)
    (hn : uniqueLen ((el.dofEntities d).map (el.entity_dofs d)) = some n)
    (hm : uniqueLen ((el.cell.topKeys d).map (el.cell.topology d)) = some m) :
    ∃ t, permDictAt el d = some t ∧
      t.map Prod.fst = List.range (Nat.factorial m * 2) ∧
      (∀ p ∈ t, p.2 = List.range n) ∧
      ∀ tbl, permutations el = some tbl → (d, t) ∈ tbl := by
  have h1 : permDictAt el d
      = some ((List.range (Nat.factorial m * 2)).map fun o => (o, List.range n)) := by
    unfold permDictAt
    rw [hn, hm]
    simp [h0]
  refine ⟨(List.range (Nat.factorial m * 2)).map fun o => (o, List.range n),
    h1, ?_, ?_, ?_⟩
  · rw [List.map_map]
    exact List.map_id _
  · intro p hp
    obtain ⟨o, ho, rfl⟩ := List.mem_map.mp hp
    rfl
  · intro tbl htbl
    obtain ⟨t, ht, hmem⟩ := collectTables_mem (permDictAt el) el.dofDims tbl d htbl hd
    rw [h1] at ht
    injection ht with ht
    subst ht
    exact hmem

/-- Witness for `permutations_full_range_amended`: the concrete element `tri1`
at dimension 1 (edges, uniform DOF count 0, uniform cone size 2). -/
theorem permutations_full_range_amended_witness :
    (1 ∈ tri1.dofDims ∧ (1 : ℕ) ≠ 0 ∧
     uniqueLen ((tri1.dofEntities 1).map (tri1.entity_dofs 1)) = some 0 ∧
     uniqueLen ((tri1.cell.topKeys 1).map (tri1.cell.topology 1)) = some 2) ∧
    ∃ t, permDictAt tri1 1 = some t ∧
      t.map Prod.fst = List.range (Nat.factorial 2 * 2) ∧
      (∀ p ∈ t, p.2 = List.range 0) ∧
      ∀ tbl, permutations tri1 = some tbl → (1, t) ∈ tbl :=
  ⟨⟨by decide, by decide, by decide, by decide⟩,
    permutations_full_range_amended tri1 1 0 2 (by decide) (by decide) (by decide)
      (by decide)⟩

/-- C6: for every element and every sub-entity dimension `d` processed by the
support-DOF computation, the quadrature rule is requested from the external
provider on the reference sub-cell constructed for dimension `d` with degree
argument exactly twice the degree, component-wise, and the support integral is
taken with the weights of exactly that rule. -/
theorem quadrature_degree_doubled (el : Element) (d : ℕ) (hd : d ∈ el.cell.dims) :
    quadFor el d = el.make_quadrature (el.cell.construct_subelement d)
      (el.degree.map fun k => 2 * k) ∧
    (el.degree.map fun k => 2 * k).length = el.degree.length ∧
    (∀ i (h : i < el.degree.length),
      (el.degree.map fun k => 2 * k).getD i 0 = 2 * el.degree.getD i 0) ∧
    ∀ f k, integral el d f k
      = ((quadFor el d).weights.enum.map fun p => sqVal el d f p.1 k * p.2).sum := by
  refine ⟨rfl, List.length_map _ _, ?_, fun f k => rfl⟩
  intro i h
  rw [List.getD_eq_getElem?_getD, List.getD_eq_getElem?_getD, List.getElem?_map,
    List.getElem?_eq_getElem h]
  rfl

/-- Witness for `quadrature_degree_doubled`: the concrete element `tri1` at
dimension 0. -/
theorem quadrature_degree_doubled_witness :
    (0 ∈ tri1.cell.dims) ∧
    (quadFor tri1 0 = tri1.make_quadrature (tri1.cell.construct_subelement 0)
      (tri1.degree.map fun k => 2 * k) ∧
    (tri1.degree.map fun k => 2 * k).length = tri1.degree.length ∧
    (∀ i (h : i < tri1.degree.length),
      (tri1.degree.map fun k => 2 * k).getD i 0 = 2 * tri1.degree.getD i 0) ∧
    ∀ f k, integral tri1 0 f k
      = ((quadFor tri1 0).weights.enum.map fun p => sqVal tri1 0 f p.1 k * p.2).sum) :=
  ⟨by decide, quadrature_degree_doubled tri1 0 (by decide)⟩

/-- C7: for every element instance, the cached accessors return equal results
on a first and a second call, and the underlying computation runs exactly once,
on the first call: starting from an empty cache, the first call stores the
computed map with compute count 1, and the second call returns the same value
leaving the count at 1, for both `entity_closure_dofs` and
`entity_support_dofs`. -/
theorem cached_dofs_computed_once (el : Element) :
    ((cachedProperty (fun _ => entity_closure_dofs el) ⟨none, 0⟩).1
      = entity_closure_dofs el) ∧
    ((cachedProperty (fun _ => entity_closure_dofs el)
        (cachedProperty (fun _ => entity_closure_dofs el) ⟨none, 0⟩).2).1
      = (cachedProperty (fun _ => entity_closure_dofs el) ⟨none, 0⟩).1) ∧
    ((cachedProperty (fun _ => entity_closure_dofs el) ⟨none, 0⟩).2.computeCount = 1) ∧
    ((cachedProperty (fun _ => entity_closure_dofs el)
        (cachedProperty (fun _ => entity_closure_dofs el) ⟨none, 0⟩).2).2.computeCount
      = 1) ∧
    ((cachedProperty (fun _ => entity_support_dofs el) ⟨none, 0⟩).1
      = entity_support_dofs el) ∧
    ((cachedProperty (fun _ => entity_support_dofs el)
        (cachedProperty (fun _ => entity_support_dofs el) ⟨none, 0⟩).2).1
      = (cachedProperty (fun _ => entity_support_dofs el) ⟨none, 0⟩).1) ∧
    ((cachedProperty (fun _ => entity_support_dofs el) ⟨none, 0⟩).2.computeCount = 1) ∧
    ((cachedProperty (fun _ => entity_support_dofs el)
        (cachedProperty (fun _ => entity_support_dofs el) ⟨none, 0⟩).2).2.computeCount
      = 1) :=
  ⟨rfl, rfl, rfl, rfl, rfl, rfl, rfl, rfl⟩

/-- C8: for every element whose `entity_dofs()` contains, within some single
dimension, two entities with DOF lists of different lengths, `permutations()`
fails (the singleton-set unpacking raises) rather than returning a table; this
holds in both the non-product and the tensor-product branch. -/
theorem permutations_nonuniform_error :
    (∀ (el : Element) (d e1 e2 : ℕ), d ∈ el.dofDims → e1 ∈ el.dofEntities d →
      e2 ∈ el.dofEntities d →
      (el.entity_dofs d e1).length ≠ (el.entity_dofs d e2).length →
      permutations el = none) ∧
    (∀ (el : ProdElement) (dim : ℕ × ℕ) (e1 e2 : ℕ), dim ∈ el.dofDims →
      e1 ∈ el.dofEntities dim → e2 ∈ el.dofEntities dim →
      (el.entity_dofs dim e1).length ≠ (el.entity_dofs dim e2).length →
      prodPermutations el = none) := by
  constructor
  · intro el d e1 e2 hd he1 he2 hne
    unfold permutations
    apply collectTables_none _ _ _ hd
    cases hu : uniqueLen ((el.dofEntities d).map (el.entity_dofs d)) with
    | none => simp [permDictAt, hu]
    | some n =>
      exact absurd ((uniqueLen_eq hu _ (List.mem_map_of_mem _ he1)).trans
        (uniqueLen_eq hu _ (List.mem_map_of_mem _ he2)).symm) hne
  · intro el dim e1 e2 hd he1 he2 hne
    unfold prodPermutations
    apply collectTables_none _ _ _ hd
    cases hu : uniqueLen ((el.dofEntities dim).map (el.entity_dofs dim)) with
    | none => simp [prodPermDictAt, hu]
    | some n =>
      exact absurd ((uniqueLen_eq hu _ (List.mem_map_of_mem _ he1)).trans
        (uniqueLen_eq hu _ (List.mem_map_of_mem _ he2)).symm) hne

/-- Witness for `permutations_nonuniform_error`: `badElem` has vertex DOF
lists of lengths 2 and 1 at dimension 0, `badProdElem` of lengths 2 and 1 at
dimension `(0, 0)`; both calls fail. -/
theorem permutations_nonuniform_error_witness :
    ((0 ∈ badElem.dofDims ∧ 0 ∈ badElem.dofEntities 0 ∧ 1 ∈ badElem.dofEntities 0 ∧
      (badElem.entity_dofs 0 0).length ≠ (badElem.entity_dofs 0 1).length) ∧
      permutations badElem = none) ∧
    (((0, 0) ∈ badProdElem.dofDims ∧ 0 ∈ badProdElem.dofEntities (0, 0) ∧
      1 ∈ badProdElem.dofEntities (0, 0) ∧
      (badProdElem.entity_dofs (0, 0) 0).length
        ≠ (badProdElem.entity_dofs (0, 0) 1).length) ∧
      prodPermutations badProdElem = none) :=
  ⟨⟨⟨by decide, by decide, by decide, by decide⟩,
    permutations_nonuniform_error.1 badElem 0 0 1 (by decide) (by decide) (by decide)
      (by decide)⟩,
   ⟨⟨by decide, by decide, by decide, by decide⟩,
    permutations_nonuniform_error.2 badProdElem (0, 0) 0 1 (by decide) (by decide)
      (by decide) (by decide)⟩⟩

/-- C9: for every element that does not override the `fiat_equivalent`
accessor, accessing it raises a not-implemented error whose message names the
element type, and never returns a value. -/
theorem fiat_equivalent_not_implemented (typeName : String) :
    fiat_equivalent typeName
      = Except.error ("Cannot make equivalent FIAT element for " ++ typeName) ∧
    ∀ v : Unit, fiat_equivalent typeName ≠ Except.ok v :=
  ⟨rfl, fun _ h => Except.noConfusion h⟩

/-- C10: for every element on a non-product cell with dimension 0 in
`entity_dofs()` and uniform per-vertex DOF count `n`, `permutations()[0]` is
exactly the single entry keyed by orientation 0 with the identity permutation
of length `n` as its value; the `factorial(m)*2` enumeration is not applied at
dimension 0. -/
theorem permutations_dim_zero (el : Element) (n : ℕ)
    (hd : 0 ∈ el.dofDims)
    (hn : uniqueLen ((el.dofEntities 0).map (el.entity_dofs 0)) = some n) :
    permDictAt el 0 = some [(0, List.range n)] ∧
    [(0, List.range n)].map Prod.fst = [0] ∧
    ∀ tbl, permutations el = some tbl → (0, [(0, List.range n)]) ∈ tbl := by
  have h1 : permDictAt el 0 = some [(0, List.range n)] := by
    unfold permDictAt
    rw [hn]
    simp
  refine ⟨h1, by simp, ?_⟩
  intro tbl htbl
  obtain ⟨t, ht, hmem⟩ := collectTables_mem (permDictAt el) el.dofDims tbl 0 htbl hd
  rw [h1] at ht
  injection ht with ht
  subst ht
  exact hmem

/-- Witness for `permutations_dim_zero`: the concrete element `tri1`, whose
vertices each carry one DOF. -/
theorem permutations_dim_zero_witness :
    (0 ∈ tri1.dofDims ∧
     uniqueLen ((tri1.dofEntities 0).map (tri1.entity_dofs 0)) = some 1) ∧
    (permDictAt tri1 0 = some [(0, List.range 1)] ∧
     [(0, List.range 1)].map Prod.fst = [0] ∧
     ∀ tbl, permutations tri1 = some tbl → (0, [(0, List.range 1)]) ∈ tbl) :=
  ⟨⟨by decide, by decide⟩, permutations_dim_zero tri1 1 (by decide) (by decide)⟩

end Finat
